import Mathlib

/-!
Verification of `open_science_catalog_backend/pull_request.py`.

This file gives a shallow embedding of the pull-request-backed revision
workflow (change descriptors, status resolution, branch allocation, content
lookup, the submission orchestrator and the submission lister) and proves the
specification claims about it.

Modelling conventions:
* Python `str` is modelled as Lean `String` (sequences of Unicode scalar
  values; Python strings holding lone surrogates are outside the model).
* Python `bytes` is modelled as `List Nat`.
* `datetime.datetime` is modelled as an opaque timestamp `Nat`.
* The Python `json` module is modelled by the `Json` type below together with
  executable `dumps` / `loads` functions mirroring `json.dumps` (default
  separators, `ensure_ascii=True` escaping) and `json.loads` (strict mode).
  JSON numbers are modelled as integers; floats are out of scope.
* Exceptions are modelled with `Except`; the GitHub client is modelled as an
  explicit environment (`RepoModel`) of deterministic responses.
-/

namespace OSC

/-! ### JSON values (model of the Python `json` module's data domain) -/

inductive Json where
  | null : Json
  | bool (b : Bool) : Json
  | num (n : Int) : Json
  | str (s : String) : Json
  | arr (elems : List Json) : Json
  | obj (members : List (String × Json)) : Json

/-- Lower-case hex digit for `n < 16`, as produced by Python's `\uXXXX` escapes. -/
def hexDigit (n : Nat) : Char :=
  if n < 10 then Char.ofNat (48 + n) else Char.ofNat (87 + n)

/-- Hex digit value of a character (Python's JSON scanner accepts both cases). -/
def fromHexDigit (c : Char) : Option Nat :=
  if 48 ≤ c.toNat ∧ c.toNat ≤ 57 then some (c.toNat - 48)
  else if 97 ≤ c.toNat ∧ c.toNat ≤ 102 then some (c.toNat - 87)
  else if 65 ≤ c.toNat ∧ c.toNat ≤ 70 then some (c.toNat - 55)
  else none

/-- Four-digit hex rendering of `n < 0x10000`, used for `\uXXXX` escapes. -/
def toHex4 (n : Nat) : List Char :=
  [hexDigit (n / 4096 % 16), hexDigit (n / 256 % 16), hexDigit (n / 16 % 16),
   hexDigit (n % 16)]

/-- Value of four hex digit characters. -/
def readHex4 (a b c d : Char) : Option Nat :=
  match fromHexDigit a, fromHexDigit b, fromHexDigit c, fromHexDigit d with
  | some x, some y, some z, some w => some (x * 4096 + y * 256 + z * 16 + w)
  | _, _, _, _ => none

/-- Escaping of one character inside a JSON string literal, following
`json.dumps`'s default `ensure_ascii=True` encoder: the two mandatory escapes,
the five short control escapes, `\u00XX` for the remaining control characters,
printable ASCII verbatim, and `\uXXXX` (with surrogate pairs beyond the BMP)
for every non-ASCII character. -/
def escapeChar (c : Char) : List Char :=
  if c = '"' then ['\\', '"']
  else if c = '\\' then ['\\', '\\']
  else if c = '\x08' then ['\\', 'b']
  else if c = '\x0c' then ['\\', 'f']
  else if c = '\n' then ['\\', 'n']
  else if c = '\r' then ['\\', 'r']
  else if c = '\t' then ['\\', 't']
  else if c.toNat < 0x20 then '\\' :: 'u' :: toHex4 c.toNat
  else if c.toNat < 0x7f then [c]
  else if c.toNat < 0x10000 then '\\' :: 'u' :: toHex4 c.toNat
  else ('\\' :: 'u' :: toHex4 (0xd800 + (c.toNat - 0x10000) / 0x400)) ++
       ('\\' :: 'u' :: toHex4 (0xdc00 + (c.toNat - 0x10000) % 0x400))

def escapeChars : List Char → List Char
  | [] => []
  | c :: cs => escapeChar c ++ escapeChars cs

/-- Quoted and escaped JSON string literal. -/
def dumpString (s : String) : List Char :=
  '"' :: escapeChars s.data ++ ['"']

mutual

/-- Serialization of a JSON value, as `json.dumps` with its default
separators `", "` and `": "` renders it. -/
def dumpVal : Json → List Char
  | .null => "null".data
  | .bool true => "true".data
  | .bool false => "false".data
  | .num n => (toString n).data
  | .str s => dumpString s
  | .arr es => '[' :: (dumpElems es ++ [']'])
  | .obj kvs => '{' :: (dumpMembers kvs ++ ['}'])

def dumpElems : List Json → List Char
  | [] => []
  | [e] => dumpVal e
  | e :: e2 :: es => dumpVal e ++ ',' :: ' ' :: dumpElems (e2 :: es)

def dumpMembers : List (String × Json) → List Char
  | [] => []
  | [(k, v)] => dumpString k ++ ':' :: ' ' :: dumpVal v
  | (k, v) :: kv2 :: kvs =>
      dumpString k ++ ':' :: ' ' :: dumpVal v ++ ',' :: ' ' :: dumpMembers (kv2 :: kvs)

end

def Json.dumps (v : Json) : String := ⟨dumpVal v⟩

/-! ### JSON parsing (model of `json.loads`, strict mode) -/

/-- Skip JSON whitespace (the scanner's set: space, tab, newline, carriage
return). -/
def skipWs : List Char → List Char
  | [] => []
  | c :: rest =>
    if c = ' ' ∨ c = '\t' ∨ c = '\n' ∨ c = '\r' then skipWs rest else c :: rest

/-- Decode the second half of a `\uXXXX\uXXXX` surrogate pair escape, the
leading `\uXXXX` having produced the high surrogate value `v`. -/
def decodeEscapePair (v : Nat) : List Char → Option (Char × List Char)
  | b2 :: u2 :: a :: b :: c :: d :: rest =>
    if b2 = '\\' ∧ u2 = 'u' then
      match readHex4 a b c d with
      | none => none
      | some w =>
        if 0xdc00 ≤ w ∧ w < 0xe000 then
          some (Char.ofNat (0x10000 + (v - 0xd800) * 0x400 + (w - 0xdc00)), rest)
        else none
    else none
  | _ => none

/-- Decode a `\uXXXX` escape (the characters after `\u`), combining
surrogate pairs; lone surrogates, which Lean strings cannot represent, are
rejected. -/
def decodeEscapeU : List Char → Option (Char × List Char)
  | a :: b :: c :: d :: rest =>
    match readHex4 a b c d with
    | none => none
    | some v =>
      if 0xd800 ≤ v ∧ v < 0xdc00 then decodeEscapePair v rest
      else if 0xdc00 ≤ v ∧ v < 0xe000 then none
      else some (Char.ofNat v, rest)
  | _ => none

/-- Decode one backslash escape (the characters after the backslash),
undoing `escapeChar`. -/
def decodeEscape : List Char → Option (Char × List Char)
  | [] => none
  | e :: rest =>
    if e = '"' then some ('"', rest)
    else if e = '\\' then some ('\\', rest)
    else if e = '/' then some ('/', rest)
    else if e = 'b' then some ('\x08', rest)
    else if e = 'f' then some ('\x0c', rest)
    else if e = 'n' then some ('\n', rest)
    else if e = 'r' then some ('\r', rest)
    else if e = 't' then some ('\t', rest)
    else if e = 'u' then decodeEscapeU rest
    else none

/-- Parse the remainder of a JSON string literal (the opening quote already
consumed), undoing `escapeChar`.  Strict mode: raw control characters are
rejected.  The fuel only needs to dominate the number of decoded
characters; callers pass the input length plus one. -/
def parseStringRest : Nat → List Char → Option (List Char × List Char)
  | 0, _ => none
  | fuel + 1, l =>
    match l with
    | [] => none
    | c :: rest =>
      if c = '"' then some ([], rest)
      else if c = '\\' then
        match decodeEscape rest with
        | none => none
        | some (ch, rest2) =>
          (parseStringRest fuel rest2).map (fun p => (ch :: p.1, p.2))
      else if c.toNat < 0x20 then none
      else (parseStringRest fuel rest).map (fun p => (c :: p.1, p.2))

/-- Parse a JSON natural number literal: a digit run without a leading zero
(as Python's scanner requires). -/
def parseNatNum (l : List Char) : Option (Nat × List Char) :=
  let digits := l.takeWhile (fun c => 48 ≤ c.toNat ∧ c.toNat ≤ 57)
  let rest := l.dropWhile (fun c => 48 ≤ c.toNat ∧ c.toNat ≤ 57)
  match digits with
  | [] => none
  | [d] => some (d.toNat - 48, rest)
  | d :: _ :: _ =>
    if d = '0' then none
    else some (digits.foldl (fun acc c => acc * 10 + (c.toNat - 48)) 0, rest)

/-- Python's `dict` display semantics for repeated keys: an existing key keeps
its position and its value is replaced; a fresh key is appended. -/
def dictInsert (kvs : List (String × Json)) (k : String) (v : Json) :
    List (String × Json) :=
  if kvs.any (fun kv => kv.1 == k) then
    kvs.map (fun kv => if kv.1 == k then (k, v) else kv)
  else kvs ++ [(k, v)]

mutual

/-- Recursive-descent JSON value parser; `fuel` strictly decreases on every
recursive call (it is seeded with the input length, which bounds the nesting
depth). -/
def parseValue : Nat → List Char → Option (Json × List Char)
  | 0, _ => none
  | fuel + 1, input =>
    match skipWs input with
    | '{' :: rest =>
      (match skipWs rest with
       | '}' :: rest2 => some (.obj [], rest2)
       | _ => parseMembers fuel [] rest)
    | '[' :: rest =>
      (match skipWs rest with
       | ']' :: rest2 => some (.arr [], rest2)
       | _ => parseElems fuel [] rest)
    | '"' :: rest =>
      (parseStringRest (rest.length + 1) rest).map (fun p => (.str ⟨p.1⟩, p.2))
    | 'n' :: 'u' :: 'l' :: 'l' :: rest => some (.null, rest)
    | 't' :: 'r' :: 'u' :: 'e' :: rest => some (.bool true, rest)
    | 'f' :: 'a' :: 'l' :: 's' :: 'e' :: rest => some (.bool false, rest)
    | '-' :: rest => (parseNatNum rest).map (fun p => (.num (-(p.1 : Int)), p.2))
    | other => (parseNatNum other).map (fun p => (.num (p.1 : Int), p.2))

/-- Parse the members of a (non-empty) JSON object, accumulating them with
`dict` assignment semantics. -/
def parseMembers : Nat → List (String × Json) → List Char → Option (Json × List Char)
  | 0, _, _ => none
  | fuel + 1, acc, input =>
    match skipWs input with
    | '"' :: rest =>
      (match parseStringRest (rest.length + 1) rest with
       | none => none
       | some (kcs, rest2) =>
         match skipWs rest2 with
         | ':' :: rest3 =>
           (match parseValue fuel rest3 with
            | none => none
            | some (v, rest4) =>
              match skipWs rest4 with
              | ',' :: rest5 => parseMembers fuel (dictInsert acc ⟨kcs⟩ v) rest5
              | '}' :: rest5 => some (.obj (dictInsert acc ⟨kcs⟩ v), rest5)
              | _ => none)
         | _ => none)
    | _ => none

/-- Parse the elements of a (non-empty) JSON array. -/
def parseElems : Nat → List Json → List Char → Option (Json × List Char)
  | 0, _, _ => none
  | fuel + 1, acc, input =>
    match parseValue fuel input with
    | none => none
    | some (v, rest) =>
      match skipWs rest with
      | ',' :: rest2 => parseElems fuel (acc ++ [v]) rest2
      | ']' :: rest2 => some (.arr (acc ++ [v]), rest2)
      | _ => none

end

/-- Model of `json.loads`: parse one JSON document, allowing surrounding
whitespace and rejecting trailing data.  `none` models `json.JSONDecodeError`. -/
def Json.loads (s : String) : Option Json :=
  match parseValue (s.data.length + 1) s.data with
  | some (v, rest) => if skipWs rest = [] then some v else none
  | none => none

/-! ### Data model of `pull_request.py` -/

/-- Python `bytes` values. -/
abbrev Bytes := List Nat

/-- Opaque timestamp standing for `datetime.datetime`. -/
abbrev Timestamp := Nat

/-- `class ChangeType(str, Enum)`: `add = "Add"`, `update = "Update"`,
`delete = "Delete"`. -/
inductive ChangeType where
  | add : ChangeType
  | update : ChangeType
  | delete : ChangeType
deriving DecidableEq

/-- The underlying `str` value of a `ChangeType` member. -/
def ChangeType.value : ChangeType → String
  | .add => "Add"
  | .update => "Update"
  | .delete => "Delete"

/-- `class PullRequestState(str, Enum)`: `pending / merged / rejected`. -/
inductive PullRequestState where
  | pending : PullRequestState
  | merged : PullRequestState
  | rejected : PullRequestState
deriving DecidableEq

/-- The fields of a remote pull-request object (`PyGithub`'s `PullRequest`)
that the source reads: `state`, `merged_at`, `body`, `html_url`,
`created_at`. -/
structure RemotePR where
  state : String
  merged_at : Option Timestamp
  body : String
  html_url : String
  created_at : Timestamp

/-- `PullRequestState.from_pull_request`: `pending` if `pr.state == "open"`,
else `merged` if `pr.merged_at is not None`, else `rejected`. -/
def PullRequestState.from_pull_request (pr : RemotePR) : PullRequestState :=
  if pr.state = "open" then .pending
  else if pr.merged_at.isSome then .merged
  else .rejected

/-- The `PullRequestBody` frozen dataclass.  Python dataclasses do not check
their annotations at construction time, so the five fields that
`deserialize` fills from the decoded JSON payload are modelled as raw `Json`
values; the three fields that `deserialize` receives as typed keyword
arguments (`state`, `url`, `created_at`) keep their annotated types. -/
structure PullRequestBody where
  filename : Json
  item_type : Json
  change_type : Json
  state : PullRequestState
  url : Option String
  created_at : Option Timestamp
  user : Json
  data_owner : Json

/-- `PullRequestBody.serialize`: `json.dumps` of the dataclass's field dict
with the keys `"url"`, `"created_at"` and `"state"` filtered out, leaving (in
dataclass field order) `filename`, `item_type`, `change_type`, `user`,
`data_owner`. -/
def PullRequestBody.serialize (b : PullRequestBody) : String :=
  Json.dumps (.obj
    [("filename", b.filename), ("item_type", b.item_type),
     ("change_type", b.change_type), ("user", b.user),
     ("data_owner", b.data_owner)])

/-- The single error raised by `PullRequestBody.deserialize`
(`PullRequestBody.DeserializeError`, wrapping a `json.JSONDecodeError` or a
`TypeError`). -/
inductive DeserializeError where
  | deserializeError : DeserializeError
deriving DecidableEq

/-- The payload keys `cls(**json.loads(data), url=..., state=..., created_at=...)`
accepts: they are exactly the dataclass fields minus the three keyword
arguments supplied by `deserialize` itself, and all five are required because
no field has a default. -/
def requiredKeys : List String :=
  ["filename", "item_type", "change_type", "user", "data_owner"]

/-- `PullRequestBody.deserialize`.  `json.loads` failure raises
`json.JSONDecodeError`; splatting a non-mapping, a missing required key, an
unknown key, or a key colliding with the supplied `url`/`state`/`created_at`
keyword arguments raises `TypeError`; both exception types are caught and
re-raised as `DeserializeError`.  Values are not type-checked (dataclasses do
not validate annotations). -/
def PullRequestBody.deserialize (data : String) (url : String)
    (state : PullRequestState) (created_at : Timestamp) :
    Except DeserializeError PullRequestBody :=
  match Json.loads data with
  | none => .error .deserializeError
  | some (.obj kvs) =>
    match kvs.lookup "filename", kvs.lookup "item_type", kvs.lookup "change_type",
        kvs.lookup "user", kvs.lookup "data_owner" with
    | some f, some it, some ct, some u, some dow =>
      if kvs.all (fun kv => requiredKeys.contains kv.1) then
        .ok ⟨f, it, ct, state, some url, some created_at, u, dow⟩
      else .error .deserializeError
    | _, _, _, _, _ => .error .deserializeError
  | some _ => .error .deserializeError

/-- Decoding of one remote pull request, as the loop body of
`pull_requests()` performs it. -/
def decodePR (pr : RemotePR) : Except DeserializeError PullRequestBody :=
  PullRequestBody.deserialize pr.body pr.html_url
    (PullRequestState.from_pull_request pr) pr.created_at

/-- `pull_requests()`: yield the decoded body of every pull request, skipping
(with a log line) each one whose body raises `DeserializeError`. -/
def pull_requests (prs : List RemotePR) : List PullRequestBody :=
  prs.filterMap (fun pr => (decodePR pr).toOption)

/-! ### The GitHub repository environment -/

/-- `github.GithubException`, carrying the HTTP status the source inspects. -/
structure GithubException where
  status : Nat
deriving DecidableEq

/-- One entry of a git tree listing (`path` is the entry's name within the
directory, `sha` its content hash). -/
structure TreeElem where
  path : String
  sha : String

/-- Deterministic environment standing for the remote repository.

* `mainTipAt k` is the commit sha of the main branch observed by the `k`-th
  `get_branch` call of a branch allocation (the tip can move between calls);
* `createRefStatus name` is `none` when `create_git_ref` for `name` succeeds
  and `some s` when it raises `GithubException` with HTTP status `s`;
* `trees parent` is the main-branch git tree listing of directory `parent`,
  `none` when `get_git_tree` raises `UnknownObjectException`;
* `updateStatus p` / `deleteStatus p` / `createPullStatus` /
  `setLabelsStatus` likewise give the failure status, if any, of
  `update_file` / `delete_file` / `create_pull` / `set_labels`;
* `mainBranch` is `config.GITHUB_MAIN_BRANCH`. -/
structure RepoModel where
  mainTipAt : Nat → String
  createRefStatus : String → Option Nat
  trees : String → Option (List TreeElem)
  updateStatus : String → Option Nat
  deleteStatus : String → Option Nat
  createPullStatus : Option Nat
  setLabelsStatus : Option Nat
  mainBranch : String

/-- The branch name attempted with suffix counter `k`: the bare base name for
`k = 1`, `base-k` afterwards. -/
def attemptName (base : String) (k : Nat) : String :=
  base ++ (if k = 1 then "" else "-" ++ toString k)

/-- `_create_branch`, with the observed main tip returned alongside the
allocated name (the source passes it straight to `create_git_ref`; returning
it makes the created ref's target visible to the theorems).  The suffix
counter `k` models the source's `postfix` parameter.  Each attempt re-fetches
the main branch (`repo.get_branch`) before calling `create_git_ref`; a 422
response is taken to mean the name exists and the next suffix is tried,
except that after more than 15 collisions the raw exception is re-raised;
every other status is re-raised immediately. -/
def createBranchAux (repo : RepoModel) (base : String) (k : Nat) :
    Except GithubException (String × String) :=
  let tip := repo.mainTipAt k
  let branch_name := attemptName base k
  match repo.createRefStatus branch_name with
  | none => .ok (branch_name, tip)
  | some status =>
    if status = 422 then
      if k > 15 then .error ⟨status⟩
      else createBranchAux repo base (k + 1)
    else .error ⟨status⟩
termination_by 16 - k
decreasing_by simp_wf; omega

/-- `_create_branch(repo, branch_base_name)` (default `postfix=1`), returning
the allocated branch name. -/
def create_branch (repo : RepoModel) (base : String) :
    Except GithubException String :=
  (createBranchAux repo base 1).map (fun r => r.1)

/-! ### Content locator -/

/-- Split a character list on `/`, keeping the raw (possibly empty)
segments. -/
def segsAux : List Char → List Char → List String
  | [], cur => [⟨cur.reverse⟩]
  | c :: cs, cur =>
    if c = '/' then (⟨cur.reverse⟩ : String) :: segsAux cs [] else segsAux cs (c :: cur)

/-- The parts of a relative `PurePath`: path segments with empty segments
dropped (`PurePath` normalizes repeated and trailing separators; absolute
paths and drive letters are outside the model). -/
def pathSegs (p : String) : List String :=
  (segsAux p.data []).filter (fun s => s ≠ "")

/-- `PurePath(p).name`: the final path segment, `""` when there is none. -/
def purePathName (p : String) : String :=
  (pathSegs p).getLastD ""

/-- `PurePath(p).parent`, as a string: `"."` when there is no parent
segment. -/
def purePathParent (p : String) : String :=
  if (pathSegs p).length ≤ 1 then "."
  else String.intercalate "/" (pathSegs p).dropLast

/-- `_previous_version_sha`: look up the parent directory's tree on the main
branch (the URL-encoding of the `branch:parent` ref is a transport detail not
modelled); `""` when the parent does not exist, otherwise the sha of the
first entry named like the path's final segment, `""` when there is none. -/
def previousVersionSha (repo : RepoModel) (path : String) : String :=
  match repo.trees (purePathParent path) with
  | none => ""
  | some tree =>
    match tree.find? (fun e => e.path == purePathName path) with
    | some e => e.sha
    | none => ""

/-! ### Submission orchestrator -/

/-- The side effects `create_pull_request` performs against the platform, in
order.  Only operations the platform actually executes appear (a
`create_git_ref` attempt that failed created nothing). -/
inductive Effect where
  | createRef (ref : String) (sha : String) : Effect
  | updateFile (path : String) (message : String) (content : Bytes)
      (sha : String) (branch : String) : Effect
  | deleteFile (path : String) (message : String) (sha : String)
      (branch : String) : Effect
  | createPull (title : String) (body : String) (head : String) (base : String)
      (maintainer_can_modify : Bool) : Effect
  | setLabels (labels : List String) : Effect
deriving DecidableEq

/-- The `if file_to_create:` block: look up the previous version sha of the
target path and call `repo.update_file` with it. -/
def writeStep (repo : RepoModel) (branch_name : String)
    (file_to_create : Option (String × Bytes)) :
    Except GithubException (List Effect) :=
  match file_to_create with
  | none => .ok []
  | some pc =>
    match repo.updateStatus pc.1 with
    | some s => .error ⟨s⟩
    | none =>
      .ok [Effect.updateFile pc.1 ("Add " ++ pc.1 ++ " for pull request submission")
        pc.2 (previousVersionSha repo pc.1) branch_name]

/-- The `if file_to_delete:` block.  The guard is Python truthiness: it is
false both for `None` and for the empty string, so a `file_to_delete` of
`""` performs no delete.  (The `if file_to_create:` guard needs no such
case: a 2-tuple is always truthy, and `if labels:` is the empty-list
check.) -/
def deleteStep (repo : RepoModel) (branch_name : String)
    (file_to_delete : Option String) : Except GithubException (List Effect) :=
  match file_to_delete with
  | none => .ok []
  | some p =>
    if p = "" then .ok []
    else
      match repo.deleteStatus p with
      | some s => .error ⟨s⟩
      | none =>
        .ok [Effect.deleteFile p ("Delete " ++ p ++ " for pull request submission")
          (previousVersionSha repo p) branch_name]

/-- The `repo.create_pull(...)` call. -/
def pullStep (repo : RepoModel) (pr_title pr_body branch_name : String) :
    Except GithubException (List Effect) :=
  match repo.createPullStatus with
  | some s => .error ⟨s⟩
  | none =>
    .ok [Effect.createPull pr_title pr_body branch_name repo.mainBranch true]

/-- The `if labels: pr.set_labels(*labels)` call. -/
def labelsStep (repo : RepoModel) (labels : List String) :
    Except GithubException (List Effect) :=
  match labels with
  | [] => .ok []
  | _ :: _ =>
    match repo.setLabelsStatus with
    | some s => .error ⟨s⟩
    | none => .ok [Effect.setLabels labels]

/-- `create_pull_request`: allocate a branch, optionally write the file to
create, optionally delete the file to delete, open the pull request, and set
labels when given.  The result is the ordered list of platform side effects;
an exception anywhere aborts the rest (partial effects are left in place on
the platform, which the trace-of-successful-run theorems do not cover). -/
def create_pull_request (repo : RepoModel) (branch_base_name : String)
    (pr_title : String) (pr_body : String)
    (file_to_create : Option (String × Bytes)) (file_to_delete : Option String)
    (labels : List String) : Except GithubException (List Effect) :=
  match createBranchAux repo branch_base_name 1 with
  | .error e => .error e
  | .ok bt =>
    match writeStep repo bt.1 file_to_create with
    | .error e => .error e
    | .ok w =>
      match deleteStep repo bt.1 file_to_delete with
      | .error e => .error e
      | .ok d =>
        match pullStep repo pr_title pr_body bt.1 with
        | .error e => .error e
        | .ok p =>
          match labelsStep repo labels with
          | .error e => .error e
          | .ok lb =>
            .ok (Effect.createRef ("refs/heads/" ++ bt.1) bt.2 :: (w ++ d ++ p ++ lb))

/-! ### Printer/parser inversion lemmas -/

theorem fromHexDigit_hexDigit (n : Nat) (h : n < 16) :
    fromHexDigit (hexDigit n) = some n := by
  interval_cases n <;> rfl

theorem readHex4_hexDigits (n : Nat) (h : n < 0x10000) :
    readHex4 (hexDigit (n / 4096 % 16)) (hexDigit (n / 256 % 16))
      (hexDigit (n / 16 % 16)) (hexDigit (n % 16)) = some n := by
  rw [readHex4, fromHexDigit_hexDigit _ (by omega), fromHexDigit_hexDigit _ (by omega),
    fromHexDigit_hexDigit _ (by omega), fromHexDigit_hexDigit _ (by omega)]
  have e : n / 4096 % 16 * 4096 + n / 256 % 16 * 256 + n / 16 % 16 * 16 + n % 16 = n := by
    omega
  simp [e]

theorem charValid (c : Char) :
    c.toNat < 0xd800 ∨ (0xdfff < c.toNat ∧ c.toNat < 0x110000) :=
  c.valid

theorem psr_quote (fuel : Nat) (rest : List Char) :
    parseStringRest (fuel + 1) ('"' :: rest) = some ([], rest) := by
  rw [parseStringRest]; simp

theorem psr_esc (fuel : Nat) (ch : Char) (l rest2 : List Char)
    (h : decodeEscape l = some (ch, rest2)) :
    parseStringRest (fuel + 1) ('\\' :: l) =
      (parseStringRest fuel rest2).map (fun p => (ch :: p.1, p.2)) := by
  rw [parseStringRest]; simp [h]

theorem psr_lit (fuel : Nat) (c : Char) (l : List Char) (h1 : ¬c = '"')
    (h2 : ¬c = '\\') (h3 : ¬c.toNat < 0x20) :
    parseStringRest (fuel + 1) (c :: l) =
      (parseStringRest fuel l).map (fun p => (c :: p.1, p.2)) := by
  rw [parseStringRest]; simp [h1, h2, h3]

theorem decodeEscape_u (l : List Char) : decodeEscape ('u' :: l) = decodeEscapeU l := by
  simp [decodeEscape]

theorem decodeEscapeU_toHex4 (n : Nat) (hn : n < 0x10000) (tail : List Char) :
    decodeEscapeU (toHex4 n ++ tail) =
      (if 0xd800 ≤ n ∧ n < 0xdc00 then decodeEscapePair n tail
       else if 0xdc00 ≤ n ∧ n < 0xe000 then none
       else some (Char.ofNat n, tail)) := by
  simp only [toHex4, List.cons_append, List.nil_append]
  simp [decodeEscapeU, readHex4_hexDigits _ hn]

theorem decodeEscapePair_toHex4 (v w : Nat) (hw : w < 0x10000) (tail : List Char) :
    decodeEscapePair v ('\\' :: 'u' :: (toHex4 w ++ tail)) =
      (if 0xdc00 ≤ w ∧ w < 0xe000 then
        some (Char.ofNat (0x10000 + (v - 0xd800) * 0x400 + (w - 0xdc00)), tail)
       else none) := by
  simp only [toHex4, List.cons_append, List.nil_append]
  simp [decodeEscapePair, readHex4_hexDigits _ hw]

/-- Every character's escape either is the character itself (then a plain
literal character for the parser) or starts with a backslash whose tail
`decodeEscape` decodes back to the character. -/
theorem escapeChar_spec (c : Char) :
    (escapeChar c = [c] ∧ ¬c = '"' ∧ ¬c = '\\' ∧ ¬c.toNat < 0x20) ∨
    (∃ t, escapeChar c = '\\' :: t ∧
      ∀ X, decodeEscape (t ++ X) = some (c, X)) := by
  by_cases h1 : c = '"'
  · exact .inr ⟨['"'], by simp [escapeChar, h1], fun X => by
      subst h1; simp [decodeEscape]⟩
  by_cases h2 : c = '\\'
  · exact .inr ⟨['\\'], by simp [escapeChar, h1, h2], fun X => by
      subst h2; simp [decodeEscape]⟩
  by_cases h3 : c = '\x08'
  · exact .inr ⟨['b'], by simp [escapeChar, h1, h2, h3], fun X => by
      subst h3; simp [decodeEscape]⟩
  by_cases h4 : c = '\x0c'
  · exact .inr ⟨['f'], by simp [escapeChar, h1, h2, h3, h4], fun X => by
      subst h4; simp [decodeEscape]⟩
  by_cases h5 : c = '\n'
  · exact .inr ⟨['n'], by simp [escapeChar, h1, h2, h3, h4, h5], fun X => by
      subst h5; simp [decodeEscape]⟩
  by_cases h6 : c = '\r'
  · exact .inr ⟨['r'], by simp [escapeChar, h1, h2, h3, h4, h5, h6], fun X => by
      subst h6; simp [decodeEscape]⟩
  by_cases h7 : c = '\t'
  · exact .inr ⟨['t'], by simp [escapeChar, h1, h2, h3, h4, h5, h6, h7], fun X => by
      subst h7; simp [decodeEscape]⟩
  by_cases h8 : c.toNat < 0x20
  · refine .inr ⟨'u' :: toHex4 c.toNat,
      by simp [escapeChar, h1, h2, h3, h4, h5, h6, h7, h8], fun X => ?_⟩
    have hv : c.toNat < 0x10000 := by omega
    have hs1 : ¬(0xd800 ≤ c.toNat ∧ c.toNat < 0xdc00) := by omega
    have hs2 : ¬(0xdc00 ≤ c.toNat ∧ c.toNat < 0xe000) := by omega
    rw [List.cons_append, decodeEscape_u, decodeEscapeU_toHex4 _ hv, if_neg hs1,
      if_neg hs2, Char.ofNat_toNat]
  by_cases h9 : c.toNat < 0x7f
  · exact .inl ⟨by simp [escapeChar, h1, h2, h3, h4, h5, h6, h7, h8, h9], h1, h2, h8⟩
  by_cases h10 : c.toNat < 0x10000
  · refine .inr ⟨'u' :: toHex4 c.toNat,
      by simp [escapeChar, h1, h2, h3, h4, h5, h6, h7, h8, h9, h10], fun X => ?_⟩
    have hs1 : ¬(0xd800 ≤ c.toNat ∧ c.toNat < 0xdc00) := by
      rcases charValid c with h | h <;> omega
    have hs2 : ¬(0xdc00 ≤ c.toNat ∧ c.toNat < 0xe000) := by
      rcases charValid c with h | h <;> omega
    rw [List.cons_append, decodeEscape_u, decodeEscapeU_toHex4 _ h10, if_neg hs1,
      if_neg hs2, Char.ofNat_toNat]
  · refine .inr ⟨'u' :: toHex4 (0xd800 + (c.toNat - 0x10000) / 0x400) ++
      ('\\' :: 'u' :: toHex4 (0xdc00 + (c.toNat - 0x10000) % 0x400)),
      by simp [escapeChar, h1, h2, h3, h4, h5, h6, h7, h8, h9, h10], fun X => ?_⟩
    have hmax : c.toNat < 0x110000 := by rcases charValid c with h | h <;> omega
    have hhiv : 0xd800 + (c.toNat - 0x10000) / 0x400 < 0x10000 := by omega
    have hlov : 0xdc00 + (c.toNat - 0x10000) % 0x400 < 0x10000 := by omega
    have hhi : 0xd800 ≤ 0xd800 + (c.toNat - 0x10000) / 0x400 ∧
        0xd800 + (c.toNat - 0x10000) / 0x400 < 0xdc00 := by omega
    have hlo : 0xdc00 ≤ 0xdc00 + (c.toNat - 0x10000) % 0x400 ∧
        0xdc00 + (c.toNat - 0x10000) % 0x400 < 0xe000 := by omega
    have hc : 0x10000 + ((0xd800 + (c.toNat - 0x10000) / 0x400) - 0xd800) * 0x400 +
        ((0xdc00 + (c.toNat - 0x10000) % 0x400) - 0xdc00) = c.toNat := by omega
    simp only [List.cons_append, List.append_assoc]
    rw [decodeEscape_u, decodeEscapeU_toHex4 _ hhiv, if_pos hhi,
      decodeEscapePair_toHex4 _ _ hlov, if_pos hlo, hc, Char.ofNat_toNat]

theorem escapeChar_length_pos (c : Char) : 1 ≤ (escapeChar c).length := by
  rcases escapeChar_spec c with ⟨he, _, _, _⟩ | ⟨t, he, _⟩ <;> simp [he]

theorem length_le_escapeChars (l : List Char) :
    l.length ≤ (escapeChars l).length := by
  induction l with
  | nil => simp [escapeChars]
  | cons c cs ih =>
    have := escapeChar_length_pos c
    simp only [escapeChars, List.length_append, List.length_cons]
    omega

/-- Core inversion: the parser decodes an escaped character sequence back to
the original characters, consuming the closing quote. -/
theorem parseStringRest_escape (l : List Char) :
    ∀ (fuel : Nat) (rest : List Char), l.length + 1 ≤ fuel →
      parseStringRest fuel (escapeChars l ++ '"' :: rest) = some (l, rest) := by
  induction l with
  | nil =>
    intro fuel rest h
    obtain ⟨f, rfl⟩ : ∃ f, fuel = f + 1 := ⟨fuel - 1, by omega⟩
    simpa [escapeChars] using psr_quote f rest
  | cons c cs ih =>
    intro fuel rest h
    obtain ⟨f, rfl⟩ : ∃ f, fuel = f + 1 := ⟨fuel - 1, by omega⟩
    rw [escapeChars, List.append_assoc]
    rcases escapeChar_spec c with ⟨he, h1, h2, h3⟩ | ⟨t, he, hd⟩
    · rw [he, List.singleton_append, psr_lit f c _ h1 h2 h3,
        ih f rest (by simp at h; omega)]
      rfl
    · rw [he, List.cons_append, psr_esc f c _ _ (hd _),
        ih f rest (by simp at h; omega)]
      rfl

theorem skipWs_cons (c : Char) (l : List Char)
    (h : ¬(c = ' ' ∨ c = '\t' ∨ c = '\n' ∨ c = '\r')) : skipWs (c :: l) = c :: l := by
  simp [skipWs, h]

theorem skipWs_space (l : List Char) : skipWs (' ' :: l) = skipWs l := by
  simp [skipWs]

theorem parseValue_space (fuel : Nat) (l : List Char) :
    parseValue (fuel + 1) (' ' :: l) = parseValue (fuel + 1) l := by
  rw [parseValue, parseValue, skipWs_space]

theorem parseValue_dumpString (fuel : Nat) (s : String) (rest : List Char) :
    parseValue (fuel + 1) (dumpString s ++ rest) = some (.str s, rest) := by
  have hshape : dumpString s ++ rest = '"' :: (escapeChars s.data ++ '"' :: rest) := by
    simp [dumpString]
  rw [hshape, parseValue, skipWs_cons _ _ (by decide)]
  have hlen : s.data.length + 1 ≤ (escapeChars s.data ++ '"' :: rest).length + 1 := by
    have := length_le_escapeChars s.data
    simp only [List.length_append, List.length_cons]
    omega
  show Option.map (fun p => (Json.str ⟨p.1⟩, p.2))
      (parseStringRest ((escapeChars s.data ++ '"' :: rest).length + 1)
        (escapeChars s.data ++ '"' :: rest)) = some (Json.str s, rest)
  rw [parseStringRest_escape s.data _ rest hlen]
  rfl

theorem parseValue_dumpTrue (fuel : Nat) (rest : List Char) :
    parseValue (fuel + 1) (dumpVal (.bool true) ++ rest) = some (.bool true, rest) := by
  show parseValue (fuel + 1) ('t' :: 'r' :: 'u' :: 'e' :: rest) = some (.bool true, rest)
  rw [parseValue, skipWs_cons _ _ (by decide)]
  rfl

theorem parseValue_dumpFalse (fuel : Nat) (rest : List Char) :
    parseValue (fuel + 1) (dumpVal (.bool false) ++ rest) = some (.bool false, rest) := by
  show parseValue (fuel + 1) ('f' :: 'a' :: 'l' :: 's' :: 'e' :: rest) =
    some (.bool false, rest)
  rw [parseValue, skipWs_cons _ _ (by decide)]
  rfl

/-- Values that `PullRequestBody.serialize` can embed directly: strings and
booleans. -/
def flatJson (v : Json) : Prop :=
  (∃ s, v = Json.str s) ∨ (∃ b, v = Json.bool b)

theorem parseValue_flat (fuel : Nat) (v : Json) (rest : List Char) (h : flatJson v) :
    parseValue (fuel + 1) (dumpVal v ++ rest) = some (v, rest) := by
  rcases h with ⟨s, rfl⟩ | ⟨b, rfl⟩
  · exact parseValue_dumpString fuel s rest
  · cases b
    · exact parseValue_dumpFalse fuel rest
    · exact parseValue_dumpTrue fuel rest

theorem parseMembers_space (fuel : Nat) (acc : List (String × Json)) (l : List Char) :
    parseMembers (fuel + 1) acc (' ' :: l) = parseMembers (fuel + 1) acc l := by
  rw [parseMembers, parseMembers, skipWs_space]

/-- The members of a dumped object with flat values parse back, `dict`-style,
onto the accumulator. -/
theorem parseMembers_dump (kvs : List (String × Json)) :
    ∀ (fuel : Nat) (acc : List (String × Json)) (rest : List Char),
      kvs ≠ [] →
      (∀ kv ∈ kvs, flatJson kv.2) →
      kvs.length + 1 ≤ fuel →
      parseMembers fuel acc (dumpMembers kvs ++ '}' :: rest) =
        some (.obj (kvs.foldl (fun a kv => dictInsert a kv.1 kv.2) acc), rest) := by
  induction kvs with
  | nil => intro _ _ _ hne; exact absurd rfl hne
  | cons kv kvs ih =>
    obtain ⟨k, v⟩ := kv
    intro fuel acc rest hne hflat hfuel
    have hv : flatJson v := hflat (k, v) (List.mem_cons_self _ _)
    simp only [List.length_cons] at hfuel
    obtain ⟨f2, rfl⟩ : ∃ f2, fuel = f2 + 1 + 1 := ⟨fuel - 2, by omega⟩
    cases kvs with
    | nil =>
      have hshape : dumpMembers [(k, v)] ++ '}' :: rest =
          '"' :: (escapeChars k.data ++ '"' :: ':' :: ' ' ::
            (dumpVal v ++ '}' :: rest)) := by
        simp [dumpMembers, dumpString]
      have hbound : k.data.length + 1 ≤
          (escapeChars k.data ++ '"' :: ':' :: ' ' ::
            (dumpVal v ++ '}' :: rest)).length + 1 := by
        have := length_le_escapeChars k.data
        simp only [List.length_append, List.length_cons]
        omega
      rw [hshape, parseMembers, skipWs_cons _ _ (by decide)]
      simp only [parseStringRest_escape k.data _ _ hbound]
      have h1 : skipWs (':' :: ' ' :: (dumpVal v ++ '}' :: rest)) =
          ':' :: ' ' :: (dumpVal v ++ '}' :: rest) := skipWs_cons _ _ (by decide)
      simp only [h1]
      have h2 : parseValue (f2 + 1) (' ' :: (dumpVal v ++ '}' :: rest)) =
          some (v, '}' :: rest) := by
        rw [parseValue_space]
        exact parseValue_flat _ _ _ hv
      simp only [h2]
      have h3 : skipWs ('}' :: rest) = '}' :: rest := skipWs_cons _ _ (by decide)
      simp only [h3]
      rfl
    | cons kv2 kvs2 =>
      have hshape : dumpMembers ((k, v) :: kv2 :: kvs2) ++ '}' :: rest =
          '"' :: (escapeChars k.data ++ '"' :: ':' :: ' ' ::
            (dumpVal v ++ ',' :: ' ' :: (dumpMembers (kv2 :: kvs2) ++ '}' :: rest))) := by
        simp [dumpMembers, dumpString]
      have hbound : k.data.length + 1 ≤
          (escapeChars k.data ++ '"' :: ':' :: ' ' ::
            (dumpVal v ++ ',' :: ' ' ::
              (dumpMembers (kv2 :: kvs2) ++ '}' :: rest))).length + 1 := by
        have := length_le_escapeChars k.data
        simp only [List.length_append, List.length_cons]
        omega
      rw [hshape, parseMembers, skipWs_cons _ _ (by decide)]
      simp only [parseStringRest_escape k.data _ _ hbound]
      have h1 : skipWs (':' :: ' ' ::
            (dumpVal v ++ ',' :: ' ' :: (dumpMembers (kv2 :: kvs2) ++ '}' :: rest))) =
          ':' :: ' ' ::
            (dumpVal v ++ ',' :: ' ' :: (dumpMembers (kv2 :: kvs2) ++ '}' :: rest)) :=
        skipWs_cons _ _ (by decide)
      simp only [h1]
      have h2 : parseValue (f2 + 1) (' ' ::
            (dumpVal v ++ ',' :: ' ' :: (dumpMembers (kv2 :: kvs2) ++ '}' :: rest))) =
          some (v, ',' :: ' ' :: (dumpMembers (kv2 :: kvs2) ++ '}' :: rest)) := by
        rw [parseValue_space]
        exact parseValue_flat _ _ _ hv
      simp only [h2]
      have h3 : skipWs (',' :: ' ' :: (dumpMembers (kv2 :: kvs2) ++ '}' :: rest)) =
          ',' :: ' ' :: (dumpMembers (kv2 :: kvs2) ++ '}' :: rest) :=
        skipWs_cons _ _ (by decide)
      simp only [h3]
      rw [parseMembers_space]
      have hfuel2 : (kv2 :: kvs2).length + 1 ≤ f2 + 1 := by
        simp only [List.length_cons] at hfuel ⊢
        omega
      exact ih (f2 + 1) (dictInsert acc k v) rest (by simp)
        (fun kv h => hflat kv (List.mem_cons_of_mem _ h)) hfuel2

theorem length_le_dumpMembers (kvs : List (String × Json)) :
    kvs.length ≤ (dumpMembers kvs).length := by
  induction kvs with
  | nil => simp [dumpMembers]
  | cons kv kvs ih =>
    obtain ⟨k, v⟩ := kv
    cases kvs with
    | nil => simp [dumpMembers, dumpString]
    | cons kv2 kvs2 =>
      simp only [dumpMembers, dumpString, List.length_cons, List.length_append] at ih ⊢
      omega

theorem dumpMembers_cons_shape (k : String) (v : Json) (kvs : List (String × Json)) :
    ∃ T, dumpMembers ((k, v) :: kvs) = '"' :: T := by
  cases kvs with
  | nil =>
    exact ⟨escapeChars k.data ++ '"' :: ':' :: ' ' :: dumpVal v,
      by simp [dumpMembers, dumpString]⟩
  | cons kv2 kvs2 =>
    exact ⟨escapeChars k.data ++ '"' :: ':' :: ' ' ::
        (dumpVal v ++ ',' :: ' ' :: dumpMembers (kv2 :: kvs2)),
      by simp [dumpMembers, dumpString]⟩

/-- Round trip at the document level, for a non-empty object with flat
values: `json.loads` recovers from `json.dumps`'s output the object built by
`dict` insertion of the members in order. -/
theorem loads_dumps_flatObj (kvs : List (String × Json)) (hne : kvs ≠ [])
    (hflat : ∀ kv ∈ kvs, flatJson kv.2) :
    Json.loads (Json.dumps (.obj kvs)) =
      some (.obj (kvs.foldl (fun a kv => dictInsert a kv.1 kv.2) [])) := by
  have hdata : (Json.dumps (.obj kvs)).data = '{' :: (dumpMembers kvs ++ ['}']) := by
    rw [Json.dumps, dumpVal]
  rw [Json.loads, hdata]
  simp only [List.length_cons]
  rw [parseValue, skipWs_cons _ _ (by decide)]
  obtain ⟨⟨k, v⟩, kvs2, rfl⟩ : ∃ kv kvs2, kvs = kv :: kvs2 := by
    cases kvs with
    | nil => exact absurd rfl hne
    | cons kv kvs2 => exact ⟨kv, kvs2, rfl⟩
  obtain ⟨T, hT⟩ := dumpMembers_cons_shape k v kvs2
  have hsw : skipWs (dumpMembers ((k, v) :: kvs2) ++ ['}']) =
      '"' :: (T ++ ['}']) := by
    rw [hT, List.cons_append]
    exact skipWs_cons _ _ (by decide)
  show (match (match skipWs (dumpMembers ((k, v) :: kvs2) ++ ['}']) with
      | '}' :: rest2 => some (Json.obj [], rest2)
      | _ => parseMembers ((dumpMembers ((k, v) :: kvs2) ++ ['}']).length + 1) []
          (dumpMembers ((k, v) :: kvs2) ++ ['}'])) with
    | some (v, rest) => if skipWs rest = [] then some v else none
    | none => none) = _
  rw [hsw]
  show (match parseMembers ((dumpMembers ((k, v) :: kvs2) ++ ['}']).length + 1) []
      (dumpMembers ((k, v) :: kvs2) ++ ['}']) with
    | some (v, rest) => if skipWs rest = [] then some v else none
    | none => none) = _
  have hbound : ((k, v) :: kvs2).length + 1 ≤
      (dumpMembers ((k, v) :: kvs2) ++ ['}']).length + 1 := by
    have := length_le_dumpMembers ((k, v) :: kvs2)
    simp only [List.length_append, List.length_cons, List.length_nil] at this ⊢
    omega
  rw [parseMembers_dump ((k, v) :: kvs2) _ [] [] hne hflat hbound]
  rfl

/-- `json.loads` applied to a serialized descriptor recovers exactly the
five-key payload object. -/
theorem loads_serialize (b : PullRequestBody)
    (h1 : flatJson b.filename) (h2 : flatJson b.item_type)
    (h3 : flatJson b.change_type) (h4 : flatJson b.user)
    (h5 : flatJson b.data_owner) :
    Json.loads b.serialize =
      some (.obj [("filename", b.filename), ("item_type", b.item_type),
        ("change_type", b.change_type), ("user", b.user),
        ("data_owner", b.data_owner)]) := by
  have hflat5 : ∀ kv ∈ [("filename", b.filename), ("item_type", b.item_type),
      ("change_type", b.change_type), ("user", b.user),
      ("data_owner", b.data_owner)], flatJson kv.2 := by
    intro kv hkv
    simp only [List.mem_cons, List.not_mem_nil, or_false] at hkv
    rcases hkv with rfl | rfl | rfl | rfl | rfl <;> assumption
  rw [PullRequestBody.serialize, loads_dumps_flatObj _ (by simp) hflat5]
  rfl

/-- Deserializing a serialized descriptor succeeds and restores the five
embedded fields, with `state`, `url` and `created_at` taken from the
supplied arguments. -/
theorem deserialize_serialize (b : PullRequestBody)
    (h1 : flatJson b.filename) (h2 : flatJson b.item_type)
    (h3 : flatJson b.change_type) (h4 : flatJson b.user)
    (h5 : flatJson b.data_owner) (url : String) (st : PullRequestState)
    (ca : Timestamp) :
    PullRequestBody.deserialize b.serialize url st ca =
      .ok ⟨b.filename, b.item_type, b.change_type, st, some url, some ca,
        b.user, b.data_owner⟩ := by
  rw [PullRequestBody.deserialize, loads_serialize b h1 h2 h3 h4 h5]
  rfl

/-! ### Branch allocation lemmas -/

/-- If the attempts with suffixes `j, …, j+m-1` all collide (422) and the
attempt with suffix `j+m` succeeds, the allocation starting at suffix `j`
returns the `j+m` name together with the main tip observed at that
attempt. -/
theorem createBranchAux_spec (repo : RepoModel) (base : String) (m : Nat) :
    ∀ j : Nat, 1 ≤ j → j + m ≤ 16 →
      (∀ i, j ≤ i → i < j + m → repo.createRefStatus (attemptName base i) = some 422) →
      repo.createRefStatus (attemptName base (j + m)) = none →
      createBranchAux repo base j =
        .ok (attemptName base (j + m), repo.mainTipAt (j + m)) := by
  induction m with
  | zero =>
    intro j h1 h2 hcol hok
    rw [createBranchAux]
    simp only [Nat.add_zero] at hok ⊢
    simp [hok]
  | succ m ih =>
    intro j h1 h2 hcol hok
    rw [createBranchAux]
    have hj : repo.createRefStatus (attemptName base j) = some 422 :=
      hcol j le_rfl (by omega)
    simp only [hj]
    rw [if_pos trivial, if_neg (by omega : ¬j > 15)]
    have heq : j + 1 + m = j + (m + 1) := by omega
    have := ih (j + 1) (by omega) (by omega)
      (fun i hi1 hi2 => hcol i (by omega) (by omega))
      (by rw [heq]; exact hok)
    rw [this, heq]

/-- If every attempt with suffix `j, …, 16` collides (422), the allocation
starting at suffix `j` re-raises the raw 422 exception at suffix 16. -/
theorem createBranchAux_exhaust (repo : RepoModel) (base : String) (m : Nat) :
    ∀ j : Nat, 1 ≤ j → j + m = 16 →
      (∀ i, j ≤ i → i ≤ 16 → repo.createRefStatus (attemptName base i) = some 422) →
      createBranchAux repo base j = .error ⟨422⟩ := by
  induction m with
  | zero =>
    intro j h1 h2 hcol
    rw [createBranchAux]
    have hj : repo.createRefStatus (attemptName base j) = some 422 :=
      hcol j le_rfl (by omega)
    simp only [hj]
    rw [if_pos trivial, if_pos (by omega : j > 15)]
  | succ m ih =>
    intro j h1 h2 hcol
    rw [createBranchAux]
    have hj : repo.createRefStatus (attemptName base j) = some 422 :=
      hcol j le_rfl (by omega)
    simp only [hj]
    rw [if_pos trivial, if_neg (by omega : ¬j > 15)]
    exact ih (j + 1) (by omega) (by omega) (fun i hi1 hi2 => hcol i (by omega) hi2)

/-- A failure status other than 422 at the first non-colliding attempt
propagates unchanged. -/
theorem createBranchAux_error (repo : RepoModel) (base : String) (m : Nat) :
    ∀ (j s : Nat), 1 ≤ j → j + m ≤ 16 → s ≠ 422 →
      (∀ i, j ≤ i → i < j + m → repo.createRefStatus (attemptName base i) = some 422) →
      repo.createRefStatus (attemptName base (j + m)) = some s →
      createBranchAux repo base j = .error ⟨s⟩ := by
  induction m with
  | zero =>
    intro j s h1 h2 hs hcol herr
    rw [createBranchAux]
    simp only [Nat.add_zero] at herr ⊢
    simp [herr, hs]
  | succ m ih =>
    intro j s h1 h2 hs hcol herr
    rw [createBranchAux]
    have hj : repo.createRefStatus (attemptName base j) = some 422 :=
      hcol j le_rfl (by omega)
    simp only [hj]
    rw [if_pos trivial, if_neg (by omega : ¬j > 15)]
    have heq : j + 1 + m = j + (m + 1) := by omega
    exact ih (j + 1) s (by omega) (by omega) hs
      (fun i hi1 hi2 => hcol i (by omega) (by omega)) (by rw [heq]; exact herr)

/-! ### Orchestrator lemmas -/

/-- The file-write effects of a successful orchestration: one write iff
`file_to_create` is set, carrying the looked-up previous-version token. -/
def writeEffects (repo : RepoModel) (bn : String)
    (fc : Option (String × Bytes)) : List Effect :=
  match fc with
  | none => []
  | some pc => [Effect.updateFile pc.1 ("Add " ++ pc.1 ++ " for pull request submission")
      pc.2 (previousVersionSha repo pc.1) bn]

/-- The file-delete effects of a successful orchestration: one delete iff
`file_to_delete` is a truthy (non-empty) path. -/
def deleteEffects (repo : RepoModel) (bn : String)
    (fd : Option String) : List Effect :=
  match fd with
  | none => []
  | some p =>
    if p = "" then []
    else [Effect.deleteFile p ("Delete " ++ p ++ " for pull request submission")
      (previousVersionSha repo p) bn]

/-- The label-setting effects of a successful orchestration: one call iff
`labels` is non-empty. -/
def labelsEffects (labels : List String) : List Effect :=
  match labels with
  | [] => []
  | _ :: _ => [Effect.setLabels labels]

theorem writeStep_ok (repo : RepoModel) (bn : String)
    (fc : Option (String × Bytes)) (w : List Effect)
    (h : writeStep repo bn fc = .ok w) :
    w = writeEffects repo bn fc := by
  cases fc with
  | none => simpa [writeStep, writeEffects] using h.symm
  | some pc =>
    cases hs : repo.updateStatus pc.1 with
    | none =>
      rw [writeStep, hs] at h
      rw [writeEffects]
      exact (Except.ok.inj h).symm
    | some s => rw [writeStep, hs] at h; cases h

theorem deleteStep_ok (repo : RepoModel) (bn : String) (fd : Option String)
    (d : List Effect) (h : deleteStep repo bn fd = .ok d) :
    d = deleteEffects repo bn fd := by
  cases fd with
  | none => simpa [deleteStep, deleteEffects] using h.symm
  | some p =>
    by_cases hp : p = ""
    · rw [deleteStep, if_pos hp] at h
      rw [deleteEffects, if_pos hp]
      exact (Except.ok.inj h).symm
    · cases hs : repo.deleteStatus p with
      | none =>
        rw [deleteStep, if_neg hp, hs] at h
        rw [deleteEffects, if_neg hp]
        exact (Except.ok.inj h).symm
      | some s => rw [deleteStep, if_neg hp, hs] at h; cases h

theorem pullStep_ok (repo : RepoModel) (t b bn : String) (p : List Effect)
    (h : pullStep repo t b bn = .ok p) :
    p = [Effect.createPull t b bn repo.mainBranch true] := by
  cases hs : repo.createPullStatus with
  | none => rw [pullStep, hs] at h; exact (Except.ok.inj h).symm
  | some s => rw [pullStep, hs] at h; cases h

theorem labelsStep_ok (repo : RepoModel) (labels : List String) (l : List Effect)
    (h : labelsStep repo labels = .ok l) :
    l = labelsEffects labels := by
  cases labels with
  | nil => simpa [labelsStep, labelsEffects] using h.symm
  | cons a as =>
    cases hs : repo.setLabelsStatus with
    | none =>
      rw [labelsStep, hs] at h
      rw [labelsEffects]
      exact (Except.ok.inj h).symm
    | some s => rw [labelsStep, hs] at h; cases h

/-- C8 (amended): a successful `create_pull_request` call performs exactly
one branch creation, exactly one file write iff `file_to_create` is set
(using the token looked up for that path, empty for a new file), exactly
one file delete iff `file_to_delete` is set to a truthy (non-empty) path —
the source's `if file_to_delete:` guard skips the delete for the empty
string — exactly one pull-request creation, and one label-setting call iff
`labels` is non-empty, in that order; both, either, or neither of
create/delete are accepted, "neither" producing a pull request with no
file changes. -/
theorem create_pull_request_trace (repo : RepoModel)
    (branch_base_name pr_title pr_body : String)
    (fc : Option (String × Bytes)) (fd : Option String) (labels : List String)
    (tr : List Effect)
    (h : create_pull_request repo branch_base_name pr_title pr_body fc fd labels =
      .ok tr) :
    ∃ bn sha, createBranchAux repo branch_base_name 1 = .ok (bn, sha) ∧
      tr = Effect.createRef ("refs/heads/" ++ bn) sha ::
        (writeEffects repo bn fc ++ deleteEffects repo bn fd ++
         [Effect.createPull pr_title pr_body bn repo.mainBranch true] ++
         labelsEffects labels) := by
  rw [create_pull_request] at h
  split at h
  · cases h
  case _ bt hcb =>
    split at h
    · cases h
    case _ w hw =>
      split at h
      · cases h
      case _ d hd =>
        split at h
        · cases h
        case _ p hp =>
          split at h
          · cases h
          case _ lb hl =>
            refine ⟨bt.1, bt.2, by rw [hcb], ?_⟩
            have htr := Except.ok.inj h
            subst htr
            rw [writeStep_ok repo bt.1 fc w hw,
              deleteStep_ok repo bt.1 fd d hd,
              pullStep_ok repo pr_title pr_body bt.1 p hp,
              labelsStep_ok repo labels lb hl]

/-! ### Claim theorems -/

/-- C1: `PullRequestState.from_pull_request` is a pure total mapping: it
returns `pending` iff the raw state is `"open"` (regardless of `merged_at`),
`merged` iff the state is not `"open"` and `merged_at` is non-null, and
`rejected` iff the state is not `"open"` and `merged_at` is null — so exactly
one of the three statuses always applies. -/
theorem status_resolver_total (pr : RemotePR) :
    (PullRequestState.from_pull_request pr = .pending ↔ pr.state = "open")
  ∧ (PullRequestState.from_pull_request pr = .merged ↔
      pr.state ≠ "open" ∧ pr.merged_at.isSome = true)
  ∧ (PullRequestState.from_pull_request pr = .rejected ↔
      pr.state ≠ "open" ∧ pr.merged_at = none) := by
  unfold PullRequestState.from_pull_request
  by_cases h : pr.state = "open" <;> cases hm : pr.merged_at <;> simp [h, hm]

/-- C2: round trip — deserializing the string produced by `serialize` on a
descriptor with arbitrary string `filename`/`item_type`/`user`, any
`ChangeType` and either boolean `data_owner` (and arbitrary own
`state`/`url`/`created_at`, with any externally supplied `url`, `state`,
`created_at`) yields a descriptor equal to the original on the five embedded
fields. -/
theorem descriptor_round_trip (f it u : String) (ct : ChangeType) (dow : Bool)
    (st0 st : PullRequestState) (url0 : Option String) (ca0 : Option Timestamp)
    (url : String) (ca : Timestamp) :
    ∃ D, PullRequestBody.deserialize
        (PullRequestBody.serialize
          ⟨.str f, .str it, .str ct.value, st0, url0, ca0, .str u, .bool dow⟩)
        url st ca = .ok D
      ∧ D.filename = .str f ∧ D.item_type = .str it
      ∧ D.change_type = .str ct.value ∧ D.user = .str u
      ∧ D.data_owner = .bool dow :=
  ⟨_, deserialize_serialize _ (.inl ⟨f, rfl⟩) (.inl ⟨it, rfl⟩)
      (.inl ⟨ct.value, rfl⟩) (.inl ⟨u, rfl⟩) (.inr ⟨dow, rfl⟩) url st ca,
    rfl, rfl, rfl, rfl, rfl⟩

/-- C4: serialization embeds exactly the keys `filename`, `item_type`,
`change_type`, `user`, `data_owner` (its output parses back to exactly that
object, so `url`, `created_at`, `state` are never embedded), and two
descriptors differing only in `url`, `created_at` or `state` serialize to
the same string. -/
theorem serialize_embeds_only_change_fields (f it ct u : String) (dow : Bool)
    (st st' : PullRequestState) (url url' : Option String)
    (ca ca' : Option Timestamp) :
    Json.loads (PullRequestBody.serialize
        ⟨.str f, .str it, .str ct, st, url, ca, .str u, .bool dow⟩) =
      some (.obj [("filename", .str f), ("item_type", .str it),
        ("change_type", .str ct), ("user", .str u), ("data_owner", .bool dow)])
  ∧ PullRequestBody.serialize
        ⟨.str f, .str it, .str ct, st, url, ca, .str u, .bool dow⟩ =
      PullRequestBody.serialize
        ⟨.str f, .str it, .str ct, st', url', ca', .str u, .bool dow⟩ :=
  ⟨loads_serialize _ (.inl ⟨f, rfl⟩) (.inl ⟨it, rfl⟩) (.inl ⟨ct, rfl⟩)
      (.inl ⟨u, rfl⟩) (.inr ⟨dow, rfl⟩), rfl⟩

/-- C9: the lister yields exactly one descriptor per pull request whose body
decodes (in order, with multiplicity), and silently omits every pull request
whose body fails decoding; it is a total function, so `DeserializeError`
never escapes it, and `deserialize`'s only error is `DeserializeError`, so
no other error kind is swallowed. -/
theorem submission_lister_spec (prs : List RemotePR) :
    (pull_requests prs).length =
      prs.countP (fun pr => (decodePR pr).toOption.isSome)
  ∧ (∀ pr ∈ prs, ∀ b, decodePR pr = .ok b → b ∈ pull_requests prs)
  ∧ (∀ b ∈ pull_requests prs, ∃ pr ∈ prs, decodePR pr = .ok b) := by
  refine ⟨?_, ?_, ?_⟩
  · induction prs with
    | nil => rfl
    | cons pr prs ih =>
      rw [pull_requests] at ih
      rw [pull_requests, List.filterMap_cons, List.countP_cons]
      cases hpr : decodePR pr with
      | ok b =>
        have h1 : (Except.ok b : Except DeserializeError PullRequestBody).toOption =
          some b := rfl
        simp only [h1]
        simp [ih]
      | error e =>
        have h1 : (Except.error e : Except DeserializeError PullRequestBody).toOption =
          none := rfl
        simp only [h1]
        simp [ih]
  · intro pr hpr b hb
    rw [pull_requests, List.mem_filterMap]
    exact ⟨pr, hpr, by rw [hb]; rfl⟩
  · intro b hb
    rw [pull_requests, List.mem_filterMap] at hb
    obtain ⟨pr, hpr, hdec⟩ := hb
    refine ⟨pr, hpr, ?_⟩
    cases hd : decodePR pr with
    | ok b2 => rw [hd] at hdec; cases hdec; rfl
    | error e => rw [hd] at hdec; cases hdec

/-- A payload that is a valid JSON object carrying all five required keys
with well-typed values plus one unknown extra key. -/
def extraKeyPayload : String :=
  Json.dumps (.obj [("filename", .str "f"), ("item_type", .str "t"),
    ("change_type", .str "Add"), ("user", .str "u"), ("data_owner", .bool true),
    ("extra", .str "x")])

/-- C3 counterexample: a payload that is a valid JSON object with all
required keys present and well typed plus an unknown extra key is NOT
tolerated — `deserialize` rejects it with `DeserializeError` (the splat into
the dataclass constructor raises `TypeError` on the unexpected keyword),
contradicting the claim that such a payload decodes successfully. -/
theorem deserialize_rejects_extra_key :
    Json.loads extraKeyPayload =
      some (.obj [("filename", .str "f"), ("item_type", .str "t"),
        ("change_type", .str "Add"), ("user", .str "u"),
        ("data_owner", .bool true), ("extra", .str "x")])
  ∧ PullRequestBody.deserialize extraKeyPayload "url" .pending 0 =
      .error .deserializeError :=
  ⟨rfl, rfl⟩

/-- C3 (amended): `deserialize` fails — always with `DeserializeError` and
never any other error kind — exactly when the payload is not valid JSON, is
not a JSON object, is missing one of the five required keys, or carries any
key outside the five required ones (unknown extra keys included); the
values' types are not checked. -/
theorem deserialize_error_contract (data url : String) (st : PullRequestState)
    (ca : Timestamp) :
    ((∃ D, PullRequestBody.deserialize data url st ca = .ok D) ↔
      (∃ kvs, Json.loads data = some (.obj kvs)
        ∧ (kvs.lookup "filename").isSome = true
        ∧ (kvs.lookup "item_type").isSome = true
        ∧ (kvs.lookup "change_type").isSome = true
        ∧ (kvs.lookup "user").isSome = true
        ∧ (kvs.lookup "data_owner").isSome = true
        ∧ ∀ kv ∈ kvs, kv.1 ∈ requiredKeys))
  ∧ (∀ e, PullRequestBody.deserialize data url st ca = .error e →
      e = DeserializeError.deserializeError) := by
  constructor
  · constructor
    · rintro ⟨D, hD⟩
      rw [PullRequestBody.deserialize] at hD
      split at hD
      · cases hD
      · rename_i kvs hkvs
        split at hD
        · rename_i f it ct u dow hf hit hct hu hdow
          split at hD
          case isTrue hall =>
            refine ⟨kvs, hkvs, by rw [hf]; rfl, by rw [hit]; rfl, by rw [hct]; rfl,
              by rw [hu]; rfl, by rw [hdow]; rfl, ?_⟩
            intro kv hkv
            have := List.all_eq_true.mp hall kv hkv
            simpa [List.contains, List.elem_iff] using this
          case isFalse => cases hD
        · cases hD
      · cases hD
    · rintro ⟨kvs, hl, h1, h2, h3, h4, h5, hall⟩
      obtain ⟨f, hf⟩ := Option.isSome_iff_exists.mp h1
      obtain ⟨it, hit⟩ := Option.isSome_iff_exists.mp h2
      obtain ⟨ct, hct⟩ := Option.isSome_iff_exists.mp h3
      obtain ⟨u, hu⟩ := Option.isSome_iff_exists.mp h4
      obtain ⟨dow, hdow⟩ := Option.isSome_iff_exists.mp h5
      have hallB : kvs.all (fun kv => requiredKeys.contains kv.1) = true :=
        List.all_eq_true.mpr (fun kv hkv => by
          simpa [List.contains, List.elem_iff] using hall kv hkv)
      rw [PullRequestBody.deserialize, hl]
      simp only [hf, hit, hct, hu, hdow, hallB]
      exact ⟨_, rfl⟩
  · intro e he
    cases e
    rfl

/-- Witness repository: branches `add-item` and `add-item-2` already exist
(422 on creation), everything else succeeds. -/
def repoTaken2 : RepoModel :=
  ⟨fun _ => "tip",
   fun n => if n = "add-item" ∨ n = "add-item-2" then some 422 else none,
   fun _ => none, fun _ => none, fun _ => none, none, none, "main"⟩

/-- Witness repository: every branch creation reports 422. -/
def repoAll422 : RepoModel :=
  ⟨fun _ => "tip", fun _ => some 422, fun _ => none, fun _ => none,
   fun _ => none, none, none, "main"⟩

/-- Witness repository: every branch creation fails with status 500. -/
def repoErr500 : RepoModel :=
  ⟨fun _ => "tip", fun _ => some 500, fun _ => none, fun _ => none,
   fun _ => none, none, none, "main"⟩

/-- Witness repository whose main tip moves between `get_branch` calls and
where only the bare name `b` is taken. -/
def repoMoving : RepoModel :=
  ⟨fun k => "tip" ++ toString k, fun n => if n = "b" then some 422 else none,
   fun _ => none, fun _ => none, fun _ => none, none, none, "main"⟩

/-- C5: the first creation attempt uses exactly the base name (no suffix),
the k-th retry after name-taken failures uses `base-(k+1)`, and when the
first `m` attempts collide the allocation returns the `(m+1)`-suffix name. -/
theorem branch_allocation_naming (repo : RepoModel) (base : String) (m : Nat)
    (h1 : m ≤ 15)
    (h2 : ∀ i, 1 ≤ i → i ≤ m → repo.createRefStatus (attemptName base i) = some 422)
    (h3 : repo.createRefStatus (attemptName base (m + 1)) = none) :
    attemptName base 1 = base
  ∧ (∀ k, 2 ≤ k → attemptName base k = base ++ ("-" ++ toString k))
  ∧ create_branch repo base = .ok (attemptName base (m + 1)) := by
  refine ⟨?_, ?_, ?_⟩
  · simp [attemptName]
  · intro k hk
    rw [attemptName, if_neg (by omega)]
  · have h3' : repo.createRefStatus (attemptName base (1 + m)) = none := by
      rw [Nat.add_comm]; exact h3
    rw [create_branch, createBranchAux_spec repo base m 1 le_rfl (by omega)
      (fun i hi1 hi2 => h2 i hi1 (by omega)) h3']
    simp [Nat.add_comm 1 m, Except.map]

/-- C5 witness: requesting `add-item` when `add-item` and `add-item-2`
exist allocates `add-item-3`. -/
theorem branch_allocation_naming_witness :
    create_branch repoTaken2 "add-item" = .ok "add-item-3" := by
  have h := branch_allocation_naming repoTaken2 "add-item" 2 (by omega)
    (by intro i hi1 hi2; interval_cases i <;> rfl) (by rfl)
  exact h.2.2

/-- C6 counterexample: when every attempt reports 422 the allocation fails
by re-raising the raw platform exception (`GithubException`, status 422) —
the code defines no dedicated `BranchAllocationExhausted` error, so the
claim that the 16th attempt fails with such an error rather than the raw
platform error is false. -/
theorem branch_allocation_exhaustion_counterexample :
    create_branch repoAll422 "add-item" = .error ⟨422⟩ := by
  rw [create_branch, createBranchAux_exhaust repoAll422 "add-item" 15 1 le_rfl
    (by omega) (fun i hi1 hi2 => rfl)]
  rfl

/-- C6 (amended): allocation is bounded at 15 suffix collisions — if
name-taken (422) failures occur on every attempt for suffixes 1 through 16,
the 16th attempt fails by re-raising the raw 422 platform exception (no
dedicated exhaustion error exists); any creation failure other than 422
propagates unchanged at any attempt. -/
theorem branch_allocation_exhaustion :
    (∀ (repo : RepoModel) (base : String),
      (∀ i, 1 ≤ i → i ≤ 16 → repo.createRefStatus (attemptName base i) = some 422) →
      create_branch repo base = .error ⟨422⟩)
  ∧ (∀ (repo : RepoModel) (base : String) (m s : Nat), s ≠ 422 → m ≤ 15 →
      (∀ i, 1 ≤ i → i ≤ m → repo.createRefStatus (attemptName base i) = some 422) →
      repo.createRefStatus (attemptName base (m + 1)) = some s →
      create_branch repo base = .error ⟨s⟩) := by
  constructor
  · intro repo base hcol
    rw [create_branch,
      createBranchAux_exhaust repo base 15 1 le_rfl (by omega) hcol]
    rfl
  · intro repo base m s hs hm hcol herr
    have herr' : repo.createRefStatus (attemptName base (1 + m)) = some s := by
      rw [Nat.add_comm]; exact herr
    rw [create_branch, createBranchAux_error repo base m 1 s le_rfl (by omega) hs
      (fun i hi1 hi2 => hcol i hi1 (by omega)) herr']
    rfl

/-- C6 witness: all-422 exhaustion yields the raw 422 exception, and a 500
failure on the first attempt propagates unchanged. -/
theorem branch_allocation_exhaustion_witness :
    create_branch repoAll422 "b" = .error ⟨422⟩
  ∧ create_branch repoErr500 "b" = .error ⟨500⟩ :=
  ⟨branch_allocation_exhaustion.1 repoAll422 "b" (fun _ _ _ => rfl),
   branch_allocation_exhaustion.2 repoErr500 "b" 0 500 (by decide) (by omega)
     (fun i hi1 hi2 => absurd (Nat.le_trans hi1 hi2) (by decide)) rfl⟩

/-- C10: each allocation attempt re-fetches the main tip before calling
`create_git_ref`; when the first `m` attempts collide and attempt `m+1`
succeeds, the created ref points at the tip observed during attempt `m+1`
(which may differ from the tip observed at the first attempt). -/
theorem branch_tip_refetched (repo : RepoModel) (base : String) (m : Nat)
    (h1 : m ≤ 15)
    (h2 : ∀ i, 1 ≤ i → i ≤ m → repo.createRefStatus (attemptName base i) = some 422)
    (h3 : repo.createRefStatus (attemptName base (m + 1)) = none) :
    createBranchAux repo base 1 =
      .ok (attemptName base (m + 1), repo.mainTipAt (m + 1)) := by
  have h3' : repo.createRefStatus (attemptName base (1 + m)) = none := by
    rw [Nat.add_comm]; exact h3
  have h := createBranchAux_spec repo base m 1 le_rfl (by omega)
    (fun i hi1 hi2 => h2 i hi1 (by omega)) h3'
  simpa [Nat.add_comm 1 m] using h

/-- C10 witness: with `b` taken and the main branch advancing between
attempts, the branch is created at the tip observed during the second
attempt, not the first. -/
theorem branch_tip_refetched_witness :
    createBranchAux repoMoving "b" 1 = .ok ("b-2", "tip2")
  ∧ repoMoving.mainTipAt 2 ≠ repoMoving.mainTipAt 1 := by
  constructor
  · exact branch_tip_refetched repoMoving "b" 1 (by omega)
      (by intro i hi1 hi2; interval_cases i; rfl) (by rfl)
  · decide

/-- Witness repository with one directory `alice` containing `foo.json`. -/
def repoC7 : RepoModel :=
  ⟨fun _ => "tip", fun _ => none,
   fun p => if p = "alice" then some [⟨"foo.json", "abc123"⟩] else none,
   fun _ => none, fun _ => none, none, none, "main"⟩

/-- C7: on a platform whose listings carry non-empty content tokens,
`_previous_version_sha` returns the empty (absent) token iff the parent
directory does not exist on main or its listing has no entry named exactly
like the path's final segment; otherwise it returns that (first matching)
entry's sha, which is non-empty. -/
theorem content_locator_spec (repo : RepoModel) (path : String)
    (hsha : ∀ parent l, repo.trees parent = some l → ∀ e ∈ l, e.sha ≠ "") :
    (previousVersionSha repo path = "" ↔
      repo.trees (purePathParent path) = none ∨
      ∃ l, repo.trees (purePathParent path) = some l ∧
        l.find? (fun e => e.path == purePathName path) = none)
  ∧ (∀ l e, repo.trees (purePathParent path) = some l →
      l.find? (fun e => e.path == purePathName path) = some e →
      previousVersionSha repo path = e.sha ∧ e.sha ≠ "") := by
  constructor
  · rw [previousVersionSha]
    cases ht : repo.trees (purePathParent path) with
    | none => simp
    | some l =>
      show (match l.find? (fun e => e.path == purePathName path) with
        | some e => e.sha
        | none => "") = "" ↔ _
      cases hf : l.find? (fun e => e.path == purePathName path) with
      | none =>
        constructor
        · intro _
          exact Or.inr ⟨l, rfl, hf⟩
        · intro _
          rfl
      | some e =>
        constructor
        · intro h
          exact absurd h (hsha _ _ ht e (List.mem_of_find?_eq_some hf))
        · rintro (hcon | ⟨l', hl', hf'⟩)
          · cases hcon
          · cases hl'
            rw [hf] at hf'
            cases hf'
  · intro l e ht hf
    rw [previousVersionSha, ht]
    show (match l.find? (fun e => e.path == purePathName path) with
      | some e => e.sha
      | none => "") = e.sha ∧ e.sha ≠ ""
    rw [hf]
    exact ⟨rfl, hsha _ _ ht e (List.mem_of_find?_eq_some hf)⟩

/-- C7 witness: `alice/foo.json` resolves to the committed entry's token
`abc123`, which is non-empty. -/
theorem content_locator_witness :
    previousVersionSha repoC7 "alice/foo.json" = "abc123" ∧ "abc123" ≠ "" := by
  have hsha : ∀ parent l, repoC7.trees parent = some l → ∀ e ∈ l, e.sha ≠ "" := by
    intro parent l h e he
    by_cases hp : parent = "alice"
    · simp only [repoC7, hp, if_pos] at h
      cases h
      simp only [List.mem_singleton] at he
      subst he
      decide
    · simp [repoC7, hp] at h
  exact (content_locator_spec repoC7 "alice/foo.json" hsha).2
    [⟨"foo.json", "abc123"⟩] ⟨"foo.json", "abc123"⟩ rfl rfl

/-- Witness repository where every operation succeeds and no file exists
yet. -/
def repoHappy : RepoModel :=
  ⟨fun _ => "tip", fun _ => none, fun _ => none, fun _ => none,
   fun _ => none, none, none, "main"⟩

/-- A concrete successful orchestration on `repoHappy`: new file
`bob/x.json`, nothing to delete, no labels. -/
theorem repoHappy_run :
    create_pull_request repoHappy "add-item" "T" "B"
      (some ("bob/x.json", [123])) none [] =
    .ok [Effect.createRef "refs/heads/add-item" "tip",
      Effect.updateFile "bob/x.json" "Add bob/x.json for pull request submission"
        [123] "" "add-item",
      Effect.createPull "T" "B" "add-item" "main" true] := by
  have hcb : createBranchAux repoHappy "add-item" 1 = .ok ("add-item", "tip") := by
    have h := createBranchAux_spec repoHappy "add-item" 0 1 le_rfl (by omega)
      (fun i hi1 hi2 => absurd (Nat.lt_of_le_of_lt hi1 hi2) (by decide)) rfl
    exact h
  rw [create_pull_request, hcb]
  rfl

/-- C8 counterexample: with `file_to_delete` set to the empty string — a
set but falsy value — the source's `if file_to_delete:` truthiness guard
skips the delete, so this successful call performs no file delete although
the claim mandates exactly one when `file_to_delete` is set; its trace
holds only the branch creation and the pull-request creation. -/
theorem orchestrator_empty_delete_counterexample :
    create_pull_request repoHappy "b" "T" "B" none (some "") [] =
      .ok [Effect.createRef "refs/heads/b" "tip",
        Effect.createPull "T" "B" "b" "main" true] := by
  have hcb : createBranchAux repoHappy "b" 1 = .ok ("b", "tip") := by
    have h := createBranchAux_spec repoHappy "b" 0 1 le_rfl (by omega)
      (fun i hi1 hi2 => absurd (Nat.lt_of_le_of_lt hi1 hi2) (by decide)) rfl
    exact h
  rw [create_pull_request, hcb]
  rfl

/-- C8 witness: the successful `repoHappy` run performs exactly one branch
creation, one file write with the empty token for the new path, no delete,
one pull-request creation, and no label call. -/
theorem orchestrator_witness :
    ∃ bn sha, createBranchAux repoHappy "add-item" 1 = .ok (bn, sha) ∧
      [Effect.createRef "refs/heads/add-item" "tip",
       Effect.updateFile "bob/x.json" "Add bob/x.json for pull request submission"
         [123] "" "add-item",
       Effect.createPull "T" "B" "add-item" "main" true] =
        Effect.createRef ("refs/heads/" ++ bn) sha ::
          (writeEffects repoHappy bn (some ("bob/x.json", [123])) ++
           deleteEffects repoHappy bn none ++
           [Effect.createPull "T" "B" bn repoHappy.mainBranch true] ++
           labelsEffects []) :=
  create_pull_request_trace repoHappy "add-item" "T" "B"
    (some ("bob/x.json", [123])) none [] _ repoHappy_run

end OSC
